import Mathlib

/-!
Shallow embedding of the order-lifecycle core of `src/agent/binance_test.py`
(class `TradingAgent`).  Python floats are modelled exactly as rationals;
Python `round` (round-half-to-even, per the language reference) is modelled
by `pyRound`.  The pending-order dict is modelled as an association list in
insertion order with unique keys (Python dict semantics).
-/

namespace StrategyBacktest

/-- Round a rational to the nearest integer, ties to the even integer.
This is the documented semantics of Python's built-in `round`. -/
def roundHalfEvenInt (q : ℚ) : ℤ :=
  if q - ⌊q⌋ < 1/2 then ⌊q⌋
  else if 1/2 < q - ⌊q⌋ then ⌊q⌋ + 1
  else if ⌊q⌋ % 2 = 0 then ⌊q⌋ else ⌊q⌋ + 1

/-- Model of Python `round(q, nd)` on an exact rational value. -/
def pyRound (q : ℚ) (nd : ℕ) : ℚ :=
  (roundHalfEvenInt (q * 10 ^ nd) : ℚ) / 10 ^ nd

/-- Round a rational to the nearest integer, ties away from zero
(the rounding mode the spec asserts). -/
def roundHalfAwayInt (q : ℚ) : ℤ :=
  if q - ⌊q⌋ < 1/2 then ⌊q⌋
  else if 1/2 < q - ⌊q⌋ then ⌊q⌋ + 1
  else if q < 0 then ⌊q⌋ else ⌊q⌋ + 1

/-- Rounding to `nd` decimal places with ties away from zero
(the spec's asserted semantics, for comparison with `pyRound`). -/
def specRound (q : ℚ) (nd : ℕ) : ℚ :=
  (roundHalfAwayInt (q * 10 ^ nd) : ℚ) / 10 ^ nd

/-- Order side, the `SIDE_BUY` / `SIDE_SELL` constants. -/
inductive Side where
  | buy
  | sell
deriving DecidableEq, Repr

/-- Exchange-reported order status strings `NEW`, `FILLED`, `CANCELED`. -/
inductive OrderStatus where
  | new
  | filled
  | canceled
deriving DecidableEq, Repr

/-- One entry of `self.pending_orders`: the dict
`{'side', 'price', 'quantity', 'timestamp'}` stored at placement. -/
structure PendingOrder where
  side : Side
  price : ℚ
  quantity : ℚ
  timestamp : ℚ
deriving DecidableEq, Repr

/-- The `order_info` dict consulted by `check_pending_orders`
(from `client.get_order`, or simulated in test mode). -/
structure OrderInfo where
  status : OrderStatus
  price : ℚ
  executedQty : ℚ
  side : Side
deriving DecidableEq, Repr

/-- `self.position` when long: `{'side': 'long', 'entry_price', 'quantity'}`
(the constant `'asset'` field is omitted). `none` models a flat position. -/
structure Position where
  entryPrice : ℚ
  quantity : ℚ
deriving DecidableEq, Repr

/-- `self.pending_orders` as an association list in insertion order. -/
abbrev Registry := List (Nat × PendingOrder)

/-- Dict lookup `self.pending_orders[oid]` (first matching key). -/
def lookupOrder : Registry → Nat → Option PendingOrder
  | [], _ => none
  | e :: t, k => if e.1 = k then some e.2 else lookupOrder t k

/-- Dict deletion `del self.pending_orders[oid]`. -/
def eraseOrder : Registry → Nat → Registry
  | [], _ => []
  | e :: t, k => if e.1 = k then eraseOrder t k else e :: eraseOrder t k

/-- Dict insertion `self.pending_orders[oid] = v` (overwrites in place,
appends a fresh key at the end). -/
def insertOrder : Registry → Nat → PendingOrder → Registry
  | [], k, v => [(k, v)]
  | e :: t, k, v => if e.1 = k then (k, v) :: t else e :: insertOrder t k v

/-- Mutable agent attributes touched by the order-lifecycle methods. -/
structure AgentState where
  pending : Registry
  position : Option Position
deriving DecidableEq, Repr

/-- `TradingAgent.calculate_quantity` (lines 86-107).  The balance read by
`get_balance` inside the function is supplied explicitly: the quote balance
for a buy, the base balance for a sell.  `step` is the exchange `stepSize`.
The final `round(quantity, 8)` is Python rounding, i.e. `pyRound`. -/
def calculate_quantity (risk_pct quoteBalance baseBalance : ℚ)
    (price : ℚ) (step : ℚ) (is_buy : Bool) : ℚ :=
  let quantity : ℚ :=
    if is_buy then quoteBalance * risk_pct / price else baseBalance * risk_pct
  let quantity : ℚ := (⌊quantity / step⌋ : ℚ) * step
  pyRound quantity 8

/-- `TradingAgent.determine_order_price` (lines 109-124): buffer the signal
price down for a buy, up for a sell, then Python-`round` to 8 places. -/
def determine_order_price (safety_buffer_pct : ℚ)
    (signal_price : ℚ) (is_buy : Bool) : ℚ :=
  if is_buy then pyRound (signal_price * (1 - safety_buffer_pct)) 8
  else pyRound (signal_price * (1 + safety_buffer_pct)) 8

/-- The spec's version of the price adjuster, identical except that the
8-decimal rounding is asserted to be half-away-from-zero.  Declared only to
be compared against `determine_order_price`. -/
def determine_order_price_spec (safety_buffer_pct : ℚ)
    (signal_price : ℚ) (is_buy : Bool) : ℚ :=
  if is_buy then specRound (signal_price * (1 - safety_buffer_pct)) 8
  else specRound (signal_price * (1 + safety_buffer_pct)) 8

/-- The order dict returned by `place_limit_order` as far as the claims
observe it (`status`, `price`, `side`, `origQty`). -/
structure PlacedOrder where
  status : OrderStatus
  price : ℚ
  side : Side
  origQty : ℚ
deriving DecidableEq, Repr

/-- `TradingAgent.place_limit_order` (lines 126-170), non-raising path.
In test mode the synthetic dict is returned immediately and the registry is
not touched.  In live mode `client.create_order` succeeds and returns a
response `exchResp` with identifier `newId`; the order is then entered into
`self.pending_orders` keyed by that identifier with `time.time() = now`. -/
def place_limit_order (test_mode : Bool) (newId : Nat) (exchResp : PlacedOrder)
    (now : ℚ) (st : AgentState) (side : Side) (price quantity : ℚ) :
    AgentState × Option PlacedOrder :=
  if test_mode then
    (st, some ⟨OrderStatus.new, price, side, quantity⟩)
  else
    ({ st with
        pending := insertOrder st.pending newId ⟨side, price, quantity, now⟩ },
      some exchResp)

/-- `TradingAgent.cancel_pending_orders` (lines 172-190).  `cancelRaises`
tells which gateway `cancel_order` calls raise; the two code paths of the
loop body (success and caught exception) both delete the entry. -/
def cancel_pending_orders (test_mode : Bool) (cancelRaises : Nat → Bool)
    (st : AgentState) : AgentState :=
  if test_mode then { st with pending := [] }
  else
    { st with
        pending := (st.pending.map Prod.fst).foldl
          (fun reg oid =>
            if cancelRaises oid then eraseOrder reg oid
            else eraseOrder reg oid)
          st.pending }

/-- Environment of one `check_pending_orders` pass: the gateway responses
(`getInfo` is `client.get_order`, or the test-mode simulation built from the
tracked order), which cancels raise, `time.time()`, the ticker price, and
the configured `order_timeout`. -/
structure ReconEnv where
  getInfo : Nat → PendingOrder → OrderInfo
  cancelRaises : Nat → Bool
  now : ℚ
  currentPrice : ℚ
  orderTimeout : ℚ

/-- The staleness test of lines 239-243: submitted longer than
`order_timeout` ago and drifted more than 10 percent from the order price. -/
def isStale (env : ReconEnv) (ord : PendingOrder) : Bool :=
  decide (env.orderTimeout < env.now - ord.timestamp) &&
    decide ((10 : ℚ) < |env.currentPrice - ord.price| / ord.price * 100)

/-- The assignment to `self.position` on a fill (lines 225-233): a Buy fill
goes long at the reported price and executed quantity, a Sell fill flattens. -/
def applyFill (info : OrderInfo) : Option Position :=
  match info.side with
  | Side.buy => some ⟨info.price, info.executedQty⟩
  | Side.sell => none

/-- State threaded through the reconciliation loop.  `posUpdates` counts
assignments to `self.position` and `cancelsIssued` records the
`client.cancel_order` calls, in order; both are observability fields with no
influence on control flow. -/
structure PassState where
  pending : Registry
  position : Option Position
  anyFilled : Bool
  posUpdates : Nat
  cancelsIssued : List Nat
deriving DecidableEq, Repr

/-- One iteration of the `check_pending_orders` loop body (lines 203-254)
for order id `oid`.  A missing key (already-removed order) is skipped.  On
`FILLED` the position is updated and the entry deleted.  Otherwise, a stale
order gets a `cancel_order` call; if that call raises, the exception is
caught by the `except` clause and the deletion on line 249 is skipped (the
`del` inside the handler, line 254, is commented out in the source). -/
def checkOrderStep (env : ReconEnv) (ps : PassState) (oid : Nat) : PassState :=
  match lookupOrder ps.pending oid with
  | none => ps
  | some ord =>
    let info := env.getInfo oid ord
    if info.status = OrderStatus.filled then
      { pending := eraseOrder ps.pending oid
        position := applyFill info
        anyFilled := true
        posUpdates := ps.posUpdates + 1
        cancelsIssued := ps.cancelsIssued }
    else if isStale env ord then
      if env.cancelRaises oid then
        { ps with cancelsIssued := ps.cancelsIssued ++ [oid] }
      else
        { ps with
            pending := eraseOrder ps.pending oid
            cancelsIssued := ps.cancelsIssued ++ [oid] }
    else ps

/-- `TradingAgent.check_pending_orders` (lines 192-256): early return on an
empty registry, else fold the loop body over a snapshot of the keys
(`list(self.pending_orders.keys())`).  The result carries the new registry
and position, the returned `any_filled` flag, and the observability
counters. -/
def check_pending_orders (env : ReconEnv) (st : AgentState) : PassState :=
  if st.pending.isEmpty then ⟨st.pending, st.position, false, 0, []⟩
  else
    (st.pending.map Prod.fst).foldl (checkOrderStep env)
      ⟨st.pending, st.position, false, 0, []⟩

/-- The test-mode simulation of `order_info` (lines 205-212): every tracked
order reports `FILLED` at its own stored price and quantity. -/
def testGetInfo : Nat → PendingOrder → OrderInfo :=
  fun _ ord => ⟨OrderStatus.filled, ord.price, ord.quantity, ord.side⟩

/-- An entry whose queried status is `FILLED` in this pass. -/
def filledEntry (env : ReconEnv) (e : Nat × PendingOrder) : Bool :=
  decide ((env.getInfo e.1 e.2).status = OrderStatus.filled)

/-- An entry that is not filled and meets the staleness test, i.e. gets a
`cancel_order` call in this pass. -/
def staleEntry (env : ReconEnv) (e : Nat × PendingOrder) : Bool :=
  !(filledEntry env e) && isStale env e.2

/-- An entry deleted from the registry by this pass: filled, or stale with a
cancel call that did not raise. -/
def removedEntry (env : ReconEnv) (e : Nat × PendingOrder) : Bool :=
  filledEntry env e || (staleEntry env e && !(env.cancelRaises e.1))

/-- An entry the pass leaves in the registry. -/
def keptEntry (env : ReconEnv) (e : Nat × PendingOrder) : Bool :=
  !(removedEntry env e)

/-- The position after folding every fill of the pass, in registry order. -/
def passPosition (env : ReconEnv) : Registry → Option Position → Option Position
  | [], pos => pos
  | e :: t, pos =>
      passPosition env t
        (if filledEntry env e then applyFill (env.getInfo e.1 e.2) else pos)

/-- Closed form of a whole reconciliation pass started from registry `L`,
position `pos` and accumulators `af`, `n`, `cs`. -/
def passResult (env : ReconEnv) (L : Registry) (pos : Option Position)
    (af : Bool) (n : Nat) (cs : List Nat) : PassState :=
  ⟨L.filter (keptEntry env),
    passPosition env L pos,
    af || L.any (filledEntry env),
    n + (L.filter (filledEntry env)).length,
    cs ++ (L.filter (staleEntry env)).map Prod.fst⟩

/-- Configuration and balances consumed by `execute_trade`. -/
structure TradeCfg where
  risk_pct : ℚ
  safety_buffer_pct : ℚ
  quoteBalance : ℚ
  baseBalance : ℚ
  step : ℚ
deriving Repr

/-- Outcome of `execute_trade`: the final agent state, the returned value,
and whether `place_limit_order` was invoked at all. -/
structure TradeOutcome where
  state : AgentState
  returned : Option PlacedOrder
  placed : Bool
deriving DecidableEq, Repr

/-- `TradingAgent.execute_trade` (lines 258-285), non-raising path: price
the order, size it, skip with a warning when
`quantity * signal_price < 0.0001`, else place the limit order (test mode
then returns `None`). -/
def execute_trade (cfg : TradeCfg) (test_mode : Bool) (newId : Nat)
    (exchResp : PlacedOrder) (now : ℚ) (st : AgentState)
    (signal : ℤ) (signal_price : ℚ) : TradeOutcome :=
  let is_buy : Bool := signal = 1
  let side := if is_buy then Side.buy else Side.sell
  let order_price := determine_order_price cfg.safety_buffer_pct signal_price is_buy
  let quantity :=
    calculate_quantity cfg.risk_pct cfg.quoteBalance cfg.baseBalance
      order_price cfg.step is_buy
  if quantity * signal_price < 1/10000 then ⟨st, none, false⟩
  else
    let r := place_limit_order test_mode newId exchResp now st side order_price quantity
    if test_mode then ⟨r.1, none, true⟩ else ⟨r.1, r.2, true⟩

theorem lookupOrder_cons (a : Nat × PendingOrder) (t : Registry) (i : Nat) :
    lookupOrder (a :: t) i = if a.1 = i then some a.2 else lookupOrder t i :=
  rfl

theorem eraseOrder_cons (a : Nat × PendingOrder) (t : Registry) (i : Nat) :
    eraseOrder (a :: t) i =
      if a.1 = i then eraseOrder t i else a :: eraseOrder t i :=
  rfl

theorem lookupOrder_cons_self (k : Nat) (v : PendingOrder) (t : Registry) :
    lookupOrder ((k, v) :: t) k = some v := by
  simp [lookupOrder]

theorem lookupOrder_cons_ne (k i : Nat) (v : PendingOrder) (t : Registry)
    (h : k ≠ i) : lookupOrder ((k, v) :: t) i = lookupOrder t i := by
  simp [lookupOrder, h]

theorem lookupOrder_eq_none_of_not_mem (L : Registry) (k : Nat)
    (h : k ∉ L.map Prod.fst) : lookupOrder L k = none := by
  induction L with
  | nil => rfl
  | cons e t ih =>
    simp only [List.map_cons, List.mem_cons, not_or] at h
    simp [lookupOrder, Ne.symm h.1, ih h.2]

theorem eraseOrder_cons_self (k : Nat) (v : PendingOrder) (t : Registry) :
    eraseOrder ((k, v) :: t) k = eraseOrder t k := by
  simp [eraseOrder]

theorem eraseOrder_cons_ne (k i : Nat) (v : PendingOrder) (t : Registry)
    (h : k ≠ i) : eraseOrder ((k, v) :: t) i = (k, v) :: eraseOrder t i := by
  simp [eraseOrder, h]

theorem eraseOrder_of_not_mem (L : Registry) (k : Nat)
    (h : k ∉ L.map Prod.fst) : eraseOrder L k = L := by
  induction L with
  | nil => rfl
  | cons e t ih =>
    simp only [List.map_cons, List.mem_cons, not_or] at h
    simp [eraseOrder, Ne.symm h.1, ih h.2]

theorem key_inj_of_nodup (L : Registry) (hnd : (L.map Prod.fst).Nodup)
    {e f : Nat × PendingOrder} (he : e ∈ L) (hf : f ∈ L) (hk : e.1 = f.1) :
    e = f := by
  induction L with
  | nil => cases he
  | cons a t ih =>
    simp only [List.map_cons, List.nodup_cons] at hnd
    rw [List.mem_cons] at he hf
    rcases he with he | he <;> rcases hf with hf | hf
    · rw [he, hf]
    · subst he
      exact absurd (hk ▸ List.mem_map_of_mem Prod.fst hf) hnd.1
    · subst hf
      exact absurd (hk ▸ List.mem_map_of_mem Prod.fst he) hnd.1
    · exact ih hnd.2 he hf

theorem lookupOrder_filter (p : Nat × PendingOrder → Bool) (L : Registry)
    (hnd : (L.map Prod.fst).Nodup) (e : Nat × PendingOrder) (he : e ∈ L) :
    lookupOrder (L.filter p) e.1 = if p e then some e.2 else none := by
  induction L with
  | nil => cases he
  | cons a t ih =>
    simp only [List.map_cons, List.nodup_cons] at hnd
    rw [List.mem_cons] at he
    rcases he with he | he
    · subst he
      by_cases hp : p e
      · simp [List.filter_cons, hp, lookupOrder]
      · have h1 : e.1 ∉ (t.filter p).map Prod.fst := by
          intro hmem
          rcases List.mem_map.mp hmem with ⟨f, hf, hfe⟩
          exact hnd.1 (hfe ▸ List.mem_map_of_mem Prod.fst (List.mem_of_mem_filter hf))
        simp [List.filter_cons, hp, lookupOrder_eq_none_of_not_mem _ _ h1]
    · have hne : a.1 ≠ e.1 := by
        intro hkey
        exact hnd.1 (hkey ▸ List.mem_map_of_mem Prod.fst he)
      by_cases hp : p a
      · rw [List.filter_cons_of_pos hp, lookupOrder_cons, if_neg hne]
        exact ih hnd.2 he
      · rw [List.filter_cons_of_neg hp]
        exact ih hnd.2 he

theorem mem_map_fst_filter (p : Nat × PendingOrder → Bool) (L : Registry)
    (hnd : (L.map Prod.fst).Nodup) (e : Nat × PendingOrder) (he : e ∈ L) :
    e.1 ∈ (L.filter p).map Prod.fst ↔ p e = true := by
  constructor
  · intro hmem
    rcases List.mem_map.mp hmem with ⟨f, hf, hfe⟩
    have hfL : f ∈ L := List.mem_of_mem_filter hf
    have : f = e := key_inj_of_nodup L hnd hfL he hfe
    subst this
    exact (List.mem_filter.mp hf).2
  · intro hp
    exact List.mem_map_of_mem Prod.fst (List.mem_filter.mpr ⟨he, hp⟩)

/-- Prepend a registry entry to the pending list of a pass state. -/
def consPending (a : Nat × PendingOrder) (ps : PassState) : PassState :=
  { ps with pending := a :: ps.pending }

theorem checkOrderStep_cons (env : ReconEnv) (a : Nat × PendingOrder)
    (t : Registry) (pos : Option Position) (af : Bool) (n : Nat)
    (cs : List Nat) (i : Nat) (h : a.1 ≠ i) :
    checkOrderStep env ⟨a :: t, pos, af, n, cs⟩ i =
      consPending a (checkOrderStep env ⟨t, pos, af, n, cs⟩ i) := by
  unfold checkOrderStep
  rw [lookupOrder_cons, if_neg h]
  cases hl : lookupOrder t i with
  | none => rfl
  | some ord =>
    by_cases hf : (env.getInfo i ord).status = OrderStatus.filled
    · simp [hf, consPending, eraseOrder_cons, h]
    · by_cases hs : isStale env ord = true
      · by_cases hc : env.cancelRaises i = true
        · simp [hf, hs, hc, consPending]
        · simp [hf, hs, hc, consPending, eraseOrder_cons, h]
      · simp [hf, hs, consPending]

theorem foldl_checkOrderStep_cons (env : ReconEnv) (ids : List Nat) :
    ∀ (a : Nat × PendingOrder) (t : Registry) (pos : Option Position)
      (af : Bool) (n : Nat) (cs : List Nat), a.1 ∉ ids →
      ids.foldl (checkOrderStep env) ⟨a :: t, pos, af, n, cs⟩ =
        consPending a (ids.foldl (checkOrderStep env) ⟨t, pos, af, n, cs⟩) := by
  induction ids with
  | nil =>
    intro a t pos af n cs _
    rfl
  | cons i ids ih =>
    intro a t pos af n cs hk
    rw [List.mem_cons, not_or] at hk
    rw [List.foldl_cons, List.foldl_cons,
      checkOrderStep_cons env a t pos af n cs i hk.1]
    exact ih a _ _ _ _ _ hk.2

theorem passResult_cons_filled (env : ReconEnv) (a : Nat × PendingOrder)
    (t : Registry) (pos : Option Position) (af : Bool) (n : Nat)
    (cs : List Nat) (hf : filledEntry env a = true) :
    passResult env (a :: t) pos af n cs =
      passResult env t (applyFill (env.getInfo a.1 a.2)) true (n + 1) cs := by
  have hs : staleEntry env a = false := by simp [staleEntry, hf]
  have hk : keptEntry env a = false := by simp [keptEntry, removedEntry, hf]
  simp [passResult, passPosition, List.filter_cons, hf, hs, hk]
  omega

theorem passResult_cons_staleRaises (env : ReconEnv) (a : Nat × PendingOrder)
    (t : Registry) (pos : Option Position) (af : Bool) (n : Nat)
    (cs : List Nat) (hf : filledEntry env a = false)
    (hs : isStale env a.2 = true) (hc : env.cancelRaises a.1 = true) :
    passResult env (a :: t) pos af n cs =
      consPending a (passResult env t pos af n (cs ++ [a.1])) := by
  have hst : staleEntry env a = true := by simp [staleEntry, hf, hs]
  have hk : keptEntry env a = true := by
    simp [keptEntry, removedEntry, hf, hst, hc]
  simp [passResult, passPosition, List.filter_cons, hf, hst, hk, consPending]

theorem passResult_cons_staleRemoved (env : ReconEnv) (a : Nat × PendingOrder)
    (t : Registry) (pos : Option Position) (af : Bool) (n : Nat)
    (cs : List Nat) (hf : filledEntry env a = false)
    (hs : isStale env a.2 = true) (hc : env.cancelRaises a.1 = false) :
    passResult env (a :: t) pos af n cs =
      passResult env t pos af n (cs ++ [a.1]) := by
  have hst : staleEntry env a = true := by simp [staleEntry, hf, hs]
  have hk : keptEntry env a = false := by
    simp [keptEntry, removedEntry, hf, hst, hc]
  simp [passResult, passPosition, List.filter_cons, hf, hst, hk]

theorem passResult_cons_quiet (env : ReconEnv) (a : Nat × PendingOrder)
    (t : Registry) (pos : Option Position) (af : Bool) (n : Nat)
    (cs : List Nat) (hf : filledEntry env a = false)
    (hs : isStale env a.2 = false) :
    passResult env (a :: t) pos af n cs =
      consPending a (passResult env t pos af n cs) := by
  have hst : staleEntry env a = false := by simp [staleEntry, hf, hs]
  have hk : keptEntry env a = true := by simp [keptEntry, removedEntry, hf, hst]
  simp [passResult, passPosition, List.filter_cons, hf, hst, hk, consPending]

theorem foldl_checkOrderStep_eq (env : ReconEnv) (L : Registry) :
    ∀ (pos : Option Position) (af : Bool) (n : Nat) (cs : List Nat),
      (L.map Prod.fst).Nodup →
      (L.map Prod.fst).foldl (checkOrderStep env) ⟨L, pos, af, n, cs⟩ =
        passResult env L pos af n cs := by
  induction L with
  | nil =>
    intro pos af n cs _
    simp [passResult, passPosition]
  | cons a t ih =>
    intro pos af n cs hnd
    simp only [List.map_cons, List.nodup_cons] at hnd
    rw [List.map_cons, List.foldl_cons]
    have hlook : lookupOrder (a :: t) a.1 = some a.2 := by
      rw [lookupOrder_cons, if_pos rfl]
    have herase : eraseOrder (a :: t) a.1 = t := by
      rw [eraseOrder_cons, if_pos rfl, eraseOrder_of_not_mem t a.1 hnd.1]
    by_cases hf : (env.getInfo a.1 a.2).status = OrderStatus.filled
    · have hstep : checkOrderStep env ⟨a :: t, pos, af, n, cs⟩ a.1 =
          ⟨t, applyFill (env.getInfo a.1 a.2), true, n + 1, cs⟩ := by
        unfold checkOrderStep
        rw [hlook]
        simp [hf, herase]
      rw [hstep, ih _ _ _ _ hnd.2,
        passResult_cons_filled env a t pos af n cs (by simp [filledEntry, hf])]
    · have hfe : filledEntry env a = false := by simp [filledEntry, hf]
      by_cases hs : isStale env a.2 = true
      · by_cases hc : env.cancelRaises a.1 = true
        · have hstep : checkOrderStep env ⟨a :: t, pos, af, n, cs⟩ a.1 =
              ⟨a :: t, pos, af, n, cs ++ [a.1]⟩ := by
            unfold checkOrderStep
            rw [hlook]
            simp [hf, hs, hc]
          rw [hstep, foldl_checkOrderStep_cons env _ a t pos af n _ hnd.1,
            ih _ _ _ _ hnd.2,
            passResult_cons_staleRaises env a t pos af n cs hfe hs hc]
        · have hcf : env.cancelRaises a.1 = false := by
            simpa using hc
          have hstep : checkOrderStep env ⟨a :: t, pos, af, n, cs⟩ a.1 =
              ⟨t, pos, af, n, cs ++ [a.1]⟩ := by
            unfold checkOrderStep
            rw [hlook]
            simp [hf, hs, hcf, herase]
          rw [hstep, ih _ _ _ _ hnd.2,
            passResult_cons_staleRemoved env a t pos af n cs hfe hs hcf]
      · have hsf : isStale env a.2 = false := by simpa using hs
        have hstep : checkOrderStep env ⟨a :: t, pos, af, n, cs⟩ a.1 =
            ⟨a :: t, pos, af, n, cs⟩ := by
          unfold checkOrderStep
          rw [hlook]
          simp [hf, hsf]
        rw [hstep, foldl_checkOrderStep_cons env _ a t pos af n _ hnd.1,
          ih _ _ _ _ hnd.2,
          passResult_cons_quiet env a t pos af n cs hfe hsf]

/-- A full `check_pending_orders` pass, in closed form: the early return on
an empty registry coincides with the fold characterization. -/
theorem check_pending_orders_eq (env : ReconEnv) (st : AgentState)
    (hnd : (st.pending.map Prod.fst).Nodup) :
    check_pending_orders env st =
      passResult env st.pending st.position false 0 [] := by
  unfold check_pending_orders
  by_cases he : st.pending.isEmpty
  · have h0 : st.pending = [] := by
      simpa [List.isEmpty_iff] using he
    rw [if_pos he]
    simp [passResult, passPosition, h0]
  · rw [if_neg he]
    exact foldl_checkOrderStep_eq env st.pending st.position false 0 [] hnd

theorem roundHalfEvenInt_intCast (m : ℤ) : roundHalfEvenInt (m : ℚ) = m := by
  unfold roundHalfEvenInt
  rw [Int.floor_intCast]
  norm_num

/-- Rounding an exact multiple of `10 ^ -8` to 8 places is the identity. -/
theorem pyRound_fixed (q : ℚ) (m : ℤ) (h : q * 10 ^ 8 = (m : ℚ)) :
    pyRound q 8 = q := by
  unfold pyRound
  rw [h, roundHalfEvenInt_intCast]
  rw [← h]
  field_simp

/-- `roundHalfEvenInt` is within a half of its argument, and at an exact
half only an even integer is returned. -/
theorem roundHalfEvenInt_close (q : ℚ) :
    |q - (roundHalfEvenInt q : ℚ)| ≤ 1/2 ∧
      (roundHalfEvenInt q % 2 = 0 ∨ |q - (roundHalfEvenInt q : ℚ)| < 1/2) := by
  have hf0 : ((⌊q⌋ : ℤ) : ℚ) ≤ q := Int.floor_le q
  have hf1 : q < (⌊q⌋ : ℚ) + 1 := Int.lt_floor_add_one q
  unfold roundHalfEvenInt
  rcases lt_trichotomy (q - (⌊q⌋ : ℚ)) (1/2) with h | h | h
  · rw [if_pos h]
    have habs : |q - (⌊q⌋ : ℚ)| = q - ⌊q⌋ := abs_of_nonneg (by linarith)
    exact ⟨by rw [habs]; linarith, Or.inr (by rw [habs]; exact h)⟩
  · rw [if_neg (by rw [h]; exact lt_irrefl _), if_neg (by rw [h]; exact lt_irrefl _)]
    by_cases he : ⌊q⌋ % 2 = 0
    · rw [if_pos he]
      have habs : |q - (⌊q⌋ : ℚ)| = 1/2 := by
        rw [abs_of_nonneg (by linarith)]
        linarith
      exact ⟨le_of_eq habs, Or.inl he⟩
    · rw [if_neg he]
      have habs : |q - ((⌊q⌋ + 1 : ℤ) : ℚ)| = 1/2 := by
        push_cast
        rw [abs_of_nonpos (by linarith)]
        linarith
      refine ⟨le_of_eq habs, Or.inl ?_⟩
      omega
  · rw [if_neg (by linarith), if_pos h]
    have habs : |q - ((⌊q⌋ + 1 : ℤ) : ℚ)| = (⌊q⌋ : ℚ) + 1 - q := by
      push_cast
      rw [abs_of_nonpos (by linarith)]
      ring
    exact ⟨by rw [habs]; linarith, Or.inr (by rw [habs]; linarith)⟩

/-- `pyRound _ 8` returns a signed multiple of `10 ^ -8` within half a tick
of its argument, ties resolved to the multiple with even numerator. -/
theorem pyRound_close (q : ℚ) :
    ∃ m : ℤ, pyRound q 8 = (m : ℚ) / 10 ^ 8 ∧
      |q - pyRound q 8| ≤ 1 / (2 * 10 ^ 8) ∧
      (m % 2 = 0 ∨ |q - pyRound q 8| < 1 / (2 * 10 ^ 8)) := by
  refine ⟨roundHalfEvenInt (q * 10 ^ 8), rfl, ?_, ?_⟩
  all_goals
    obtain ⟨h1, h2⟩ := roundHalfEvenInt_close (q * 10 ^ 8)
    have h10 : (0 : ℚ) < 10 ^ 8 := by norm_num
    have key : |q - pyRound q 8| =
        |q * 10 ^ 8 - (roundHalfEvenInt (q * 10 ^ 8) : ℚ)| / 10 ^ 8 := by
      unfold pyRound
      rw [← abs_of_pos h10, ← abs_div, abs_of_pos h10]
      congr 1
      field_simp
  · rw [key]
    calc |q * 10 ^ 8 - (roundHalfEvenInt (q * 10 ^ 8) : ℚ)| / 10 ^ 8
        ≤ (1/2) / 10 ^ 8 := by gcongr
      _ = 1 / (2 * 10 ^ 8) := by norm_num
  · rcases h2 with h2 | h2
    · exact Or.inl h2
    · refine Or.inr ?_
      rw [key]
      calc |q * 10 ^ 8 - (roundHalfEvenInt (q * 10 ^ 8) : ℚ)| / 10 ^ 8
          < (1/2) / 10 ^ 8 := by gcongr
        _ = 1 / (2 * 10 ^ 8) := by norm_num

/-- After a pass, a tracked entry is found in the registry exactly when the
pass classified it as kept, and then with its original fields. -/
theorem lookup_after_pass (env : ReconEnv) (st : AgentState)
    (hnd : (st.pending.map Prod.fst).Nodup) (e : Nat × PendingOrder)
    (he : e ∈ st.pending) :
    lookupOrder (check_pending_orders env st).pending e.1 =
      if keptEntry env e then some e.2 else none := by
  rw [check_pending_orders_eq env st hnd]
  exact lookupOrder_filter (keptEntry env) st.pending hnd e he

/-- Shared concrete sample: a buy limit order resting in the registry. -/
def sampleBuyOrder : PendingOrder := ⟨Side.buy, 95, 21/200, 0⟩

/-- Shared concrete sample: a registry holding only `sampleBuyOrder`. -/
def sampleSt : AgentState := ⟨[(1, sampleBuyOrder)], none⟩

/-- Shared concrete sample: a test-mode-like pass environment in which
every status query reports a fill. -/
def sampleEnv : ReconEnv := ⟨testGetInfo, fun _ => false, 400, 95, 300⟩

/-- Claim C1: in every reconciliation pass (`check_pending_orders`), a
tracked order whose queried status is Filled is removed from the
pending-order registry; when the registry holds that one order, a Buy fill
sets the position to Long at the reported fill price and executed quantity
and a Sell fill sets it to Flat (`none`); and the number of position
updates equals the number of fills observed — exactly one per fill. -/
theorem claim_C1 (env : ReconEnv) (st : AgentState)
    (hnd : (st.pending.map Prod.fst).Nodup) :
    (∀ e ∈ st.pending, (env.getInfo e.1 e.2).status = OrderStatus.filled →
      lookupOrder (check_pending_orders env st).pending e.1 = none) ∧
    (check_pending_orders env st).posUpdates =
      (st.pending.filter (filledEntry env)).length ∧
    ∀ oid ord, st.pending = [(oid, ord)] →
      (env.getInfo oid ord).status = OrderStatus.filled →
      ((env.getInfo oid ord).side = Side.buy →
        (check_pending_orders env st).position =
          some ⟨(env.getInfo oid ord).price, (env.getInfo oid ord).executedQty⟩) ∧
      ((env.getInfo oid ord).side = Side.sell →
        (check_pending_orders env st).position = none) := by
  refine ⟨?_, ?_, ?_⟩
  · intro e he hf
    rw [lookup_after_pass env st hnd e he]
    have : keptEntry env e = false := by
      simp [keptEntry, removedEntry, filledEntry, hf]
    rw [this]
    simp
  · rw [check_pending_orders_eq env st hnd]
    simp [passResult]
  · intro oid ord hp hf
    have hfe : filledEntry env (oid, ord) = true := by simp [filledEntry, hf]
    constructor
    · intro hside
      rw [check_pending_orders_eq env st hnd]
      simp [passResult, hp, passPosition, hfe, applyFill, hside]
    · intro hside
      rw [check_pending_orders_eq env st hnd]
      simp [passResult, hp, passPosition, hfe, applyFill, hside]

/-- Witness for C1 at the concrete sample state and environment. -/
theorem claim_C1_witness :
    ((sampleSt.pending.map Prod.fst).Nodup) ∧
    ((∀ e ∈ sampleSt.pending,
        (sampleEnv.getInfo e.1 e.2).status = OrderStatus.filled →
        lookupOrder (check_pending_orders sampleEnv sampleSt).pending e.1 = none) ∧
      (check_pending_orders sampleEnv sampleSt).posUpdates =
        (sampleSt.pending.filter (filledEntry sampleEnv)).length ∧
      ∀ oid ord, sampleSt.pending = [(oid, ord)] →
        (sampleEnv.getInfo oid ord).status = OrderStatus.filled →
        ((sampleEnv.getInfo oid ord).side = Side.buy →
          (check_pending_orders sampleEnv sampleSt).position =
            some ⟨(sampleEnv.getInfo oid ord).price,
              (sampleEnv.getInfo oid ord).executedQty⟩) ∧
        ((sampleEnv.getInfo oid ord).side = Side.sell →
          (check_pending_orders sampleEnv sampleSt).position = none)) :=
  ⟨by simp [sampleSt], claim_C1 sampleEnv sampleSt (by simp [sampleSt])⟩

/-- Shared concrete sample: an aged buy order at price 100. -/
def staleOrd : PendingOrder := ⟨Side.buy, 100, 1, 0⟩

/-- Shared concrete sample: a registry holding only `staleOrd`. -/
def staleSt : AgentState := ⟨[(1, staleOrd)], none⟩

/-- Shared concrete sample: a gateway whose status queries report `NEW`. -/
def newGetInfo : Nat → PendingOrder → OrderInfo :=
  fun _ ord => ⟨OrderStatus.new, ord.price, 0, ord.side⟩

/-- Shared concrete sample: a pass at `now = 1000` (timeout 300 elapsed),
last price 50 (50 percent drift from 100), where every cancel call raises. -/
def staleEnvRaise : ReconEnv := ⟨newGetInfo, fun _ => true, 1000, 50, 300⟩

/-- Shared concrete sample: same as `staleEnvRaise` but cancels succeed. -/
def staleEnvOk : ReconEnv := ⟨newGetInfo, fun _ => false, 1000, 50, 300⟩

theorem isStale_staleOrd_raise : isStale staleEnvRaise staleOrd = true := by
  norm_num [isStale, staleEnvRaise, staleOrd, Bool.and_eq_true,
    decide_eq_true_eq]

theorem isStale_staleOrd_ok : isStale staleEnvOk staleOrd = true := by
  norm_num [isStale, staleEnvOk, staleOrd, Bool.and_eq_true,
    decide_eq_true_eq]

/-- Counterexample to claim C2 as stated: in `check_pending_orders`, a stale
tracked order whose `cancel_order` call raises is NOT dropped from the local
registry — the `del` in the `except` handler (line 254) is commented out, so
the cancel is issued (recorded as `[1]`) but the entry survives the pass. -/
theorem claim_C2_counterexample :
    (check_pending_orders staleEnvRaise staleSt).cancelsIssued = [1] ∧
    lookupOrder (check_pending_orders staleEnvRaise staleSt).pending 1 =
      some staleOrd := by
  have hnd : ((staleSt.pending).map Prod.fst).Nodup := by simp [staleSt]
  have hfe : filledEntry staleEnvRaise (1, staleOrd) = false := by
    simp [filledEntry, staleEnvRaise, newGetInfo]
  have hst : staleEntry staleEnvRaise (1, staleOrd) = true := by
    simp [staleEntry, hfe, isStale_staleOrd_raise]
  constructor
  · rw [check_pending_orders_eq staleEnvRaise staleSt hnd]
    show [] ++ ((staleSt.pending.filter (staleEntry staleEnvRaise)).map
      Prod.fst) = [1]
    rw [show staleSt.pending = [(1, staleOrd)] from rfl,
      List.filter_cons_of_pos hst]
    rfl
  · rw [lookup_after_pass staleEnvRaise staleSt hnd (1, staleOrd)
      (by simp [staleSt])]
    have hcr : staleEnvRaise.cancelRaises 1 = true := rfl
    have hk : keptEntry staleEnvRaise (1, staleOrd) = true := by
      simp [keptEntry, removedEntry, hfe, hst, hcr]
    rw [hk]
    simp

/-- Claim C2 amended: a tracked non-filled order that the pass decides is
stale always gets a cancel call issued; the order is removed from the local
registry only when that call does not raise — when `cancel_order` raises,
the exception is caught, and the order stays in the registry. -/
theorem claim_C2_amended (env : ReconEnv) (st : AgentState)
    (hnd : (st.pending.map Prod.fst).Nodup) (e : Nat × PendingOrder)
    (he : e ∈ st.pending)
    (hnf : (env.getInfo e.1 e.2).status ≠ OrderStatus.filled)
    (hs : isStale env e.2 = true) :
    e.1 ∈ (check_pending_orders env st).cancelsIssued ∧
    lookupOrder (check_pending_orders env st).pending e.1 =
      (if env.cancelRaises e.1 then some e.2 else none) := by
  have hfe : filledEntry env e = false := by simp [filledEntry, hnf]
  have hst : staleEntry env e = true := by simp [staleEntry, hfe, hs]
  constructor
  · rw [check_pending_orders_eq env st hnd]
    have := (mem_map_fst_filter (staleEntry env) st.pending hnd e he).mpr hst
    simpa [passResult] using this
  · rw [lookup_after_pass env st hnd e he]
    by_cases hc : env.cancelRaises e.1 = true
    · have hk : keptEntry env e = true := by
        simp [keptEntry, removedEntry, hfe, hst, hc]
      rw [hk, hc]
    · have hcf : env.cancelRaises e.1 = false := by simpa using hc
      have hk : keptEntry env e = false := by
        simp [keptEntry, removedEntry, hfe, hst, hcf]
      rw [hk, hcf]

/-- Witness for the amended C2 at the concrete raising sample. -/
theorem claim_C2_amended_witness :
    ((staleSt.pending.map Prod.fst).Nodup ∧
      (1, staleOrd) ∈ staleSt.pending ∧
      (staleEnvRaise.getInfo 1 staleOrd).status ≠ OrderStatus.filled ∧
      isStale staleEnvRaise staleOrd = true) ∧
    ((1, staleOrd).1 ∈ (check_pending_orders staleEnvRaise staleSt).cancelsIssued ∧
      lookupOrder (check_pending_orders staleEnvRaise staleSt).pending
          (1, staleOrd).1 =
        (if staleEnvRaise.cancelRaises (1, staleOrd).1 then some (1, staleOrd).2
          else none)) :=
  ⟨⟨by simp [staleSt], by simp [staleSt],
      by simp [staleEnvRaise, newGetInfo], isStale_staleOrd_raise⟩,
    claim_C2_amended staleEnvRaise staleSt (by simp [staleSt]) (1, staleOrd)
      (by simp [staleSt]) (by simp [staleEnvRaise, newGetInfo])
      isStale_staleOrd_raise⟩

/-- Shared concrete sample: a gateway reporting `CANCELED` for every order,
at `now = 100`, before the 300-second timeout elapses. -/
def canceledEnv : ReconEnv :=
  ⟨fun _ ord => ⟨OrderStatus.canceled, ord.price, 0, ord.side⟩,
    fun _ => false, 100, 100, 300⟩

/-- Counterexample to claim C3 as stated: an order observed with the
terminal status Cancelled during a pass is NOT removed from the registry
when the staleness test fails (here: only 100 of the 300-second timeout has
elapsed) — `check_pending_orders` only reacts to `FILLED` or to staleness. -/
theorem claim_C3_counterexample :
    (canceledEnv.getInfo 1 staleOrd).status = OrderStatus.canceled ∧
    lookupOrder (check_pending_orders canceledEnv staleSt).pending 1 =
      some staleOrd := by
  have hnd : ((staleSt.pending).map Prod.fst).Nodup := by simp [staleSt]
  have hfe : filledEntry canceledEnv (1, staleOrd) = false := by
    simp [filledEntry, canceledEnv]
  have hss : isStale canceledEnv staleOrd = false := by
    norm_num [isStale, canceledEnv, staleOrd]
  have hst : staleEntry canceledEnv (1, staleOrd) = false := by
    simp [staleEntry, hfe, hss]
  refine ⟨by simp [canceledEnv], ?_⟩
  rw [lookup_after_pass canceledEnv staleSt hnd (1, staleOrd)
    (by simp [staleSt])]
  have hk : keptEntry canceledEnv (1, staleOrd) = true := by
    simp [keptEntry, removedEntry, hfe, hst]
  rw [hk]
  simp

/-- Claim C3 amended: during a pass, a tracked order observed `FILLED` is
removed from the registry in that same pass and exactly once; a tracked
order observed with any other status — including the terminal Cancelled —
is removed exactly when it is stale (timeout elapsed and drift above 10
percent) and its cancel call succeeds, and otherwise survives the pass with
its original fields. -/
theorem claim_C3_amended (env : ReconEnv) (st : AgentState)
    (hnd : (st.pending.map Prod.fst).Nodup) (e : Nat × PendingOrder)
    (he : e ∈ st.pending) :
    ((env.getInfo e.1 e.2).status = OrderStatus.filled →
      lookupOrder (check_pending_orders env st).pending e.1 = none) ∧
    ((env.getInfo e.1 e.2).status ≠ OrderStatus.filled →
      lookupOrder (check_pending_orders env st).pending e.1 =
        (if isStale env e.2 && !(env.cancelRaises e.1) then none
          else some e.2)) := by
  rw [lookup_after_pass env st hnd e he]
  constructor
  · intro hf
    have hk : keptEntry env e = false := by
      simp [keptEntry, removedEntry, filledEntry, hf]
    rw [hk]
    simp
  · intro hnf
    have hfe : filledEntry env e = false := by simp [filledEntry, hnf]
    rcases Bool.eq_false_or_eq_true (isStale env e.2) with hs | hs <;>
      rcases Bool.eq_false_or_eq_true (env.cancelRaises e.1) with hc | hc <;>
      simp [keptEntry, removedEntry, staleEntry, hfe, hs, hc]

/-- Witness for the amended C3 at the concrete cancelled-status sample. -/
theorem claim_C3_amended_witness :
    ((staleSt.pending.map Prod.fst).Nodup ∧ (1, staleOrd) ∈ staleSt.pending) ∧
    (((canceledEnv.getInfo 1 staleOrd).status = OrderStatus.filled →
        lookupOrder (check_pending_orders canceledEnv staleSt).pending 1 = none) ∧
      ((canceledEnv.getInfo 1 staleOrd).status ≠ OrderStatus.filled →
        lookupOrder (check_pending_orders canceledEnv staleSt).pending 1 =
          (if isStale canceledEnv staleOrd && !(canceledEnv.cancelRaises 1)
            then none else some staleOrd))) :=
  ⟨⟨by simp [staleSt], by simp [staleSt]⟩,
    claim_C3_amended canceledEnv staleSt (by simp [staleSt]) (1, staleOrd)
      (by simp [staleSt])⟩

theorem lookupOrder_insertOrder (L : Registry) (k : Nat) (v : PendingOrder) :
    lookupOrder (insertOrder L k v) k = some v := by
  induction L with
  | nil => simp [insertOrder, lookupOrder]
  | cons a t ih =>
    by_cases h : a.1 = k
    · rw [insertOrder, if_pos h, lookupOrder_cons]
      simp
    · rw [insertOrder, if_neg h, lookupOrder_cons, if_neg h]
      exact ih

/-- Shared concrete sample: a synthetic exchange response dict. -/
def sampleResp : PlacedOrder := ⟨OrderStatus.new, 95, Side.buy, 21/200⟩

/-- Counterexample to claim C4 as stated: in test mode, `place_limit_order`
returns an order (the synthetic `test_order` dict, line 141) but returns
before the registry insertion on line 159 — the submitted order is never
entered into the pending-order registry. -/
theorem claim_C4_counterexample :
    ((place_limit_order true 1 sampleResp 0 ⟨[], none⟩ Side.buy 95
        (21/200)).2).isSome = true ∧
    (place_limit_order true 1 sampleResp 0 ⟨[], none⟩ Side.buy 95
        (21/200)).1.pending = [] := by
  constructor <;> simp [place_limit_order]

/-- Claim C4 amended: only in live mode does a successful
`place_limit_order` enter the submitted order into the pending-order
registry (keyed by the exchange order id, carrying side, price, quantity
and submission time) while returning the exchange response; in test mode
the synthetic order dict is returned and the agent state — in particular
the registry — is left untouched. -/
theorem claim_C4_amended (newId : Nat) (resp : PlacedOrder) (now : ℚ)
    (st : AgentState) (side : Side) (price qty : ℚ) :
    lookupOrder
        (place_limit_order false newId resp now st side price qty).1.pending
        newId = some ⟨side, price, qty, now⟩ ∧
    (place_limit_order false newId resp now st side price qty).2 = some resp ∧
    (place_limit_order true newId resp now st side price qty).1 = st ∧
    (place_limit_order true newId resp now st side price qty).2 =
      some ⟨OrderStatus.new, price, side, qty⟩ := by
  refine ⟨?_, rfl, rfl, rfl⟩
  show lookupOrder (insertOrder st.pending newId ⟨side, price, qty, now⟩)
    newId = some ⟨side, price, qty, now⟩
  exact lookupOrder_insertOrder st.pending newId _

/-- Claim C5: reconciliation is idempotent in the claimed sense — a pass
over an empty registry is a no-op that keeps the registry empty, the
position unchanged, and returns `False`; and for a single tracked order
whose queried status is Filled, one pass empties the registry applying
exactly one position update, and a second pass right after finds the empty
registry and changes nothing further. -/
theorem claim_C5 :
    (∀ (env : ReconEnv) (st : AgentState), st.pending = [] →
      check_pending_orders env st = ⟨[], st.position, false, 0, []⟩) ∧
    (∀ (env env2 : ReconEnv) (st : AgentState) (oid : Nat)
        (ord : PendingOrder),
      st.pending = [(oid, ord)] →
      (env.getInfo oid ord).status = OrderStatus.filled →
      (check_pending_orders env st).pending = [] ∧
      (check_pending_orders env st).posUpdates = 1 ∧
      check_pending_orders env2
          ⟨(check_pending_orders env st).pending,
            (check_pending_orders env st).position⟩ =
        ⟨[], (check_pending_orders env st).position, false, 0, []⟩) := by
  have hempty : ∀ (env : ReconEnv) (st : AgentState), st.pending = [] →
      check_pending_orders env st = ⟨[], st.position, false, 0, []⟩ := by
    intro env st h
    unfold check_pending_orders
    rw [if_pos (by simp [h])]
    rw [h]
  refine ⟨hempty, ?_⟩
  intro env env2 st oid ord hp hf
  have hnd : (st.pending.map Prod.fst).Nodup := by simp [hp]
  have hfe : filledEntry env (oid, ord) = true := by simp [filledEntry, hf]
  have hk : keptEntry env (oid, ord) = false := by
    simp [keptEntry, removedEntry, hfe]
  have h1 : (check_pending_orders env st).pending = [] := by
    rw [check_pending_orders_eq env st hnd]
    show st.pending.filter (keptEntry env) = []
    rw [hp, List.filter_cons_of_neg (by simp [hk])]
    rfl
  refine ⟨h1, ?_, hempty env2 _ h1⟩
  rw [check_pending_orders_eq env st hnd]
  show 0 + (st.pending.filter (filledEntry env)).length = 1
  rw [hp, List.filter_cons_of_pos hfe]
  rfl

/-- Witness for C5: both conjuncts applied at concrete inputs — the empty
registry, and the concrete single filled buy order of the sample state. -/
theorem claim_C5_witness :
    (check_pending_orders sampleEnv ⟨[], some ⟨7, 1⟩⟩ =
      ⟨[], some ⟨7, 1⟩, false, 0, []⟩) ∧
    (sampleSt.pending = [(1, sampleBuyOrder)] ∧
      (sampleEnv.getInfo 1 sampleBuyOrder).status = OrderStatus.filled) ∧
    ((check_pending_orders sampleEnv sampleSt).pending = [] ∧
      (check_pending_orders sampleEnv sampleSt).posUpdates = 1 ∧
      check_pending_orders sampleEnv
          ⟨(check_pending_orders sampleEnv sampleSt).pending,
            (check_pending_orders sampleEnv sampleSt).position⟩ =
        ⟨[], (check_pending_orders sampleEnv sampleSt).position,
          false, 0, []⟩) :=
  ⟨claim_C5.1 sampleEnv ⟨[], some ⟨7, 1⟩⟩ rfl,
    ⟨rfl, rfl⟩,
    claim_C5.2 sampleEnv sampleEnv sampleSt 1 sampleBuyOrder rfl rfl⟩

/-- Claim C6: for a tracked non-filled order (whose cancel call, when made,
does not raise), a reconciliation pass issues a cancel and removes the
order if and only if the elapsed time since submission exceeds the
configured timeout AND the relative drift of the last price from the order
price exceeds 10 percent; when either condition fails, the order survives
the pass untouched, with its original fields. -/
theorem claim_C6 (env : ReconEnv) (st : AgentState)
    (hnd : (st.pending.map Prod.fst).Nodup) (e : Nat × PendingOrder)
    (he : e ∈ st.pending)
    (hnf : (env.getInfo e.1 e.2).status ≠ OrderStatus.filled)
    (hcr : env.cancelRaises e.1 = false) :
    ((e.1 ∈ (check_pending_orders env st).cancelsIssued ∧
        lookupOrder (check_pending_orders env st).pending e.1 = none) ↔
      (env.orderTimeout < env.now - e.2.timestamp ∧
        (10 : ℚ) < |env.currentPrice - e.2.price| / e.2.price * 100)) ∧
    (¬(env.orderTimeout < env.now - e.2.timestamp ∧
        (10 : ℚ) < |env.currentPrice - e.2.price| / e.2.price * 100) →
      lookupOrder (check_pending_orders env st).pending e.1 = some e.2) := by
  have hfe : filledEntry env e = false := by simp [filledEntry, hnf]
  have hstale : isStale env e.2 = true ↔
      (env.orderTimeout < env.now - e.2.timestamp ∧
        (10 : ℚ) < |env.currentPrice - e.2.price| / e.2.price * 100) := by
    simp [isStale, Bool.and_eq_true, decide_eq_true_eq]
  have hcano : e.1 ∈ (check_pending_orders env st).cancelsIssued ↔
      staleEntry env e = true := by
    rw [check_pending_orders_eq env st hnd]
    show e.1 ∈ [] ++ ((st.pending.filter (staleEntry env)).map Prod.fst) ↔ _
    rw [List.nil_append]
    exact mem_map_fst_filter (staleEntry env) st.pending hnd e he
  rw [lookup_after_pass env st hnd e he]
  constructor
  · rw [← hstale, hcano]
    rcases Bool.eq_false_or_eq_true (isStale env e.2) with hs | hs <;>
      simp [keptEntry, removedEntry, staleEntry, hfe, hs, hcr]
  · intro hnot
    rw [← hstale] at hnot
    have hs : isStale env e.2 = false := by simpa using hnot
    simp [keptEntry, removedEntry, staleEntry, hfe, hs]

/-- Witness for C6 at the concrete stale sample with succeeding cancels. -/
theorem claim_C6_witness :
    ((staleSt.pending.map Prod.fst).Nodup ∧
      (1, staleOrd) ∈ staleSt.pending ∧
      (staleEnvOk.getInfo 1 staleOrd).status ≠ OrderStatus.filled ∧
      staleEnvOk.cancelRaises 1 = false) ∧
    (((1 ∈ (check_pending_orders staleEnvOk staleSt).cancelsIssued ∧
        lookupOrder (check_pending_orders staleEnvOk staleSt).pending 1 =
          none) ↔
      (staleEnvOk.orderTimeout < staleEnvOk.now - staleOrd.timestamp ∧
        (10 : ℚ) <
          |staleEnvOk.currentPrice - staleOrd.price| / staleOrd.price * 100)) ∧
    (¬(staleEnvOk.orderTimeout < staleEnvOk.now - staleOrd.timestamp ∧
        (10 : ℚ) <
          |staleEnvOk.currentPrice - staleOrd.price| / staleOrd.price * 100) →
      lookupOrder (check_pending_orders staleEnvOk staleSt).pending 1 =
        some staleOrd)) :=
  ⟨⟨by simp [staleSt], by simp [staleSt],
      by simp [staleEnvOk, newGetInfo], rfl⟩,
    claim_C6 staleEnvOk staleSt (by simp [staleSt]) (1, staleOrd)
      (by simp [staleSt]) (by simp [staleEnvOk, newGetInfo]) rfl⟩

/-- Counterexample to claim C7 as stated: for a lot step that is not a
multiple of `10 ^ -8` — here `3 * 10 ^ -9` — the trailing `round(_, 8)` of
`calculate_quantity` breaks the multiple-of-step guarantee: with balance
1000, risk 1 percent, price 1, the raw floor gives `9.999999999`, which
rounds to `10`, and `10` is not an integer multiple of `3 * 10 ^ -9`. -/
theorem claim_C7_counterexample :
    calculate_quantity (1/100) 1000 0 1 (3/1000000000) true = 10 ∧
    ¬∃ n : ℤ, (10 : ℚ) = n * (3/1000000000) := by
  constructor
  · norm_num [calculate_quantity, pyRound, roundHalfEvenInt]
  · rintro ⟨n, hn⟩
    have h3 : (n : ℚ) * 3 = 10000000000 := by
      field_simp at hn
      linarith
    have h4 : (n * 3 : ℤ) = 10000000000 := by exact_mod_cast h3
    omega

/-- Claim C7 amended: for every price > 0, balances ≥ 0, risk fraction
≤ 1, and a lot step that is a positive integer multiple of `10 ^ -8` (the
precision of the trailing `round(_, 8)`; all real exchange steps are), the
result of `calculate_quantity` is an exact integer multiple of the step,
rounded down, and never exceeds `balance / price` for a buy nor `balance`
for a sell. -/
theorem claim_C7_amended (risk qb bb price : ℚ) (k : ℕ) (b : Bool)
    (hrisk : risk ≤ 1) (hqb : 0 ≤ qb) (hbb : 0 ≤ bb) (hprice : 0 < price)
    (hk : 0 < k) :
    ∃ n : ℤ,
      calculate_quantity risk qb bb price ((k : ℚ) / 10 ^ 8) b =
        n * ((k : ℚ) / 10 ^ 8) ∧
      calculate_quantity risk qb bb price ((k : ℚ) / 10 ^ 8) b ≤
        (if b then qb / price else bb) := by
  have hk0 : (0 : ℚ) < (k : ℚ) := by exact_mod_cast hk
  have hstep : (0 : ℚ) < (k : ℚ) / 10 ^ 8 := by positivity
  have hq : calculate_quantity risk qb bb price ((k : ℚ) / 10 ^ 8) b =
      (⌊(if b then qb * risk / price else bb * risk) /
          ((k : ℚ) / 10 ^ 8)⌋ : ℚ) * ((k : ℚ) / 10 ^ 8) := by
    unfold calculate_quantity
    apply pyRound_fixed _
      (⌊(if b then qb * risk / price else bb * risk) /
          ((k : ℚ) / 10 ^ 8)⌋ * k)
    push_cast
    field_simp
  refine ⟨⌊(if b then qb * risk / price else bb * risk) /
      ((k : ℚ) / 10 ^ 8)⌋, hq, ?_⟩
  rw [hq]
  have hle : (⌊(if b then qb * risk / price else bb * risk) /
        ((k : ℚ) / 10 ^ 8)⌋ : ℚ) * ((k : ℚ) / 10 ^ 8) ≤
      (if b then qb * risk / price else bb * risk) := by
    calc (⌊(if b then qb * risk / price else bb * risk) /
            ((k : ℚ) / 10 ^ 8)⌋ : ℚ) * ((k : ℚ) / 10 ^ 8)
        ≤ ((if b then qb * risk / price else bb * risk) /
            ((k : ℚ) / 10 ^ 8)) * ((k : ℚ) / 10 ^ 8) :=
          mul_le_mul_of_nonneg_right (Int.floor_le _) hstep.le
      _ = (if b then qb * risk / price else bb * risk) :=
          div_mul_cancel₀ _ (ne_of_gt hstep)
  refine le_trans hle ?_
  cases b
  · simp only [Bool.false_eq_true, if_false]
    calc bb * risk ≤ bb * 1 := mul_le_mul_of_nonneg_left hrisk hbb
      _ = bb := mul_one bb
  · simp only [if_true]
    have h1 : qb * risk ≤ qb := by
      calc qb * risk ≤ qb * 1 := mul_le_mul_of_nonneg_left hrisk hqb
        _ = qb := mul_one qb
    gcongr

/-- Witness for the amended C7 at the spec's own sizing scenario: balance
1000, risk 1 percent, price 95, step 0.001. -/
theorem claim_C7_amended_witness :
    ((1 : ℚ)/100 ≤ 1 ∧ (0 : ℚ) ≤ 1000 ∧ (0 : ℚ) ≤ 1/10 ∧
      (0 : ℚ) < 95 ∧ 0 < 100000) ∧
    ∃ n : ℤ,
      calculate_quantity (1/100) 1000 (1/10) 95 ((100000 : ℚ) / 10 ^ 8)
          true = n * ((100000 : ℚ) / 10 ^ 8) ∧
      calculate_quantity (1/100) 1000 (1/10) 95 ((100000 : ℚ) / 10 ^ 8)
          true ≤ (if true then (1000 : ℚ) / 95 else 1/10) :=
  ⟨⟨by norm_num, by norm_num, by norm_num, by norm_num, by norm_num⟩,
    claim_C7_amended (1/100) 1000 (1/10) 95 100000 true (by norm_num)
      (by norm_num) (by norm_num) (by norm_num) (by norm_num)⟩

/-- Counterexample to claim C8 as stated: Python's `round` rounds ties to
even, not away from zero.  With the default 5 percent buffer and signal
price `1/38000000`, the buffered buy price is exactly `2.5 * 10 ^ -8`: the
code (`determine_order_price`, via `round(_, 8)`) yields `2 * 10 ^ -8`,
while the spec's half-away-from-zero rounding would give `3 * 10 ^ -8`. -/
theorem claim_C8_counterexample :
    determine_order_price (1/20) (1/38000000) true = 1/50000000 ∧
    determine_order_price_spec (1/20) (1/38000000) true = 3/100000000 ∧
    determine_order_price (1/20) (1/38000000) true ≠
      determine_order_price_spec (1/20) (1/38000000) true := by
  refine ⟨?_, ?_, ?_⟩
  · norm_num [determine_order_price, pyRound, roundHalfEvenInt]
  · norm_num [determine_order_price_spec, specRound, roundHalfAwayInt]
  · norm_num [determine_order_price, determine_order_price_spec, pyRound,
      specRound, roundHalfEvenInt, roundHalfAwayInt]

/-- Claim C8 amended: `determine_order_price` returns
`signalPrice * (1 - bufferPct)` for a buy and `signalPrice * (1 + bufferPct)`
for a sell, rounded to a multiple of `10 ^ -8` within half a tick, with a
tie resolved to the even multiple (Python round-half-to-even), not
half-away-from-zero. -/
theorem claim_C8_amended (buffer signal : ℚ) (b : Bool) :
    ∃ m : ℤ,
      determine_order_price buffer signal b = (m : ℚ) / 10 ^ 8 ∧
      |signal * (if b then 1 - buffer else 1 + buffer) -
          determine_order_price buffer signal b| ≤ 1 / (2 * 10 ^ 8) ∧
      (m % 2 = 0 ∨
        |signal * (if b then 1 - buffer else 1 + buffer) -
            determine_order_price buffer signal b| < 1 / (2 * 10 ^ 8)) := by
  cases b
  · simpa [determine_order_price] using pyRound_close (signal * (1 + buffer))
  · simpa [determine_order_price] using pyRound_close (signal * (1 - buffer))

/-- Shared concrete sample: live-mode trade configuration with quote
balance 100, risk 1 percent, no buffer, unit lot step. -/
def tradeCfg9 : TradeCfg := ⟨1/100, 0, 100, 0, 1⟩

/-- Counterexample to claim C9 as stated: `execute_trade` compares
`quantity * signal_price` against the hard-coded constant `0.0001`, not
against the exchange's per-symbol minimum notional.  Here the computed
order has notional 1 — far below the typical Binance minimum notional of
10 — yet the order is submitted rather than skipped. -/
theorem claim_C9_counterexample :
    (execute_trade tradeCfg9 false 7 sampleResp 0 ⟨[], none⟩ 1 1).placed =
      true ∧
    calculate_quantity tradeCfg9.risk_pct tradeCfg9.quoteBalance
        tradeCfg9.baseBalance
        (determine_order_price tradeCfg9.safety_buffer_pct 1 true)
        tradeCfg9.step true * 1 < 10 := by
  constructor
  · norm_num [execute_trade, place_limit_order, calculate_quantity,
      determine_order_price, pyRound, roundHalfEvenInt, tradeCfg9]
  · norm_num [calculate_quantity, determine_order_price, pyRound,
      roundHalfEvenInt, tradeCfg9]

/-- Claim C9 amended: `execute_trade` skips submission — returning `None`
with the state untouched and no order placed — exactly when the computed
`quantity * signal_price` falls below the hard-coded threshold `0.0001`;
the exchange minimum notional is never consulted. -/
theorem claim_C9_amended (cfg : TradeCfg) (test_mode : Bool) (newId : Nat)
    (resp : PlacedOrder) (now : ℚ) (st : AgentState) (signal : ℤ)
    (sp : ℚ) :
    ((execute_trade cfg test_mode newId resp now st signal sp).placed =
        false ↔
      calculate_quantity cfg.risk_pct cfg.quoteBalance cfg.baseBalance
          (determine_order_price cfg.safety_buffer_pct sp
            (decide (signal = 1)))
          cfg.step (decide (signal = 1)) * sp < 1/10000) ∧
    ((execute_trade cfg test_mode newId resp now st signal sp).placed =
        false →
      (execute_trade cfg test_mode newId resp now st signal sp).state = st ∧
      (execute_trade cfg test_mode newId resp now st signal sp).returned =
        none) := by
  by_cases h : calculate_quantity cfg.risk_pct cfg.quoteBalance
      cfg.baseBalance
      (determine_order_price cfg.safety_buffer_pct sp (decide (signal = 1)))
      cfg.step (decide (signal = 1)) * sp < 1/10000
  · simp only [execute_trade]
    rw [if_pos h]
    simp [h]
    rwa [one_div] at h
  · simp only [execute_trade]
    rw [if_neg h]
    rw [not_lt, one_div] at h
    cases test_mode <;> simp [place_limit_order, h]

/-- Shared concrete sample: a configuration whose tiny quote balance makes
the computed quantity round down to zero, forcing the skip branch. -/
def tradeCfgSkip : TradeCfg := ⟨1/100, 0, 1/1000, 0, 1⟩

/-- Witness for the amended C9 at a concrete skipping input. -/
theorem claim_C9_amended_witness :
    ((execute_trade tradeCfgSkip false 7 sampleResp 0 ⟨[], none⟩ 1 1).placed =
        false ↔
      calculate_quantity tradeCfgSkip.risk_pct tradeCfgSkip.quoteBalance
          tradeCfgSkip.baseBalance
          (determine_order_price tradeCfgSkip.safety_buffer_pct 1
            (decide ((1 : ℤ) = 1)))
          tradeCfgSkip.step (decide ((1 : ℤ) = 1)) * 1 < 1/10000) ∧
    ((execute_trade tradeCfgSkip false 7 sampleResp 0 ⟨[], none⟩ 1 1).placed =
        false →
      (execute_trade tradeCfgSkip false 7 sampleResp 0 ⟨[], none⟩ 1 1).state =
        ⟨[], none⟩ ∧
      (execute_trade tradeCfgSkip false 7 sampleResp 0 ⟨[], none⟩ 1 1).returned =
        none) :=
  claim_C9_amended tradeCfgSkip false 7 sampleResp 0 ⟨[], none⟩ 1 1

theorem mem_eraseOrder (L : Registry) (k : Nat) (e : Nat × PendingOrder) :
    e ∈ eraseOrder L k ↔ e ∈ L ∧ e.1 ≠ k := by
  induction L with
  | nil => simp [eraseOrder]
  | cons a t ih =>
    by_cases h : a.1 = k
    · rw [eraseOrder_cons, if_pos h, ih]
      constructor
      · rintro ⟨h1, h2⟩
        exact ⟨List.mem_cons_of_mem a h1, h2⟩
      · rintro ⟨h1, h2⟩
        rcases List.mem_cons.mp h1 with rfl | h1
        · exact absurd h h2
        · exact ⟨h1, h2⟩
    · rw [eraseOrder_cons, if_neg h]
      constructor
      · intro h1
        rcases List.mem_cons.mp h1 with rfl | h1
        · exact ⟨List.mem_cons_self e t, h⟩
        · obtain ⟨h2, h3⟩ := ih.mp h1
          exact ⟨List.mem_cons_of_mem a h2, h3⟩
      · rintro ⟨h1, h2⟩
        rcases List.mem_cons.mp h1 with rfl | h1
        · exact List.mem_cons_self e _
        · exact List.mem_cons_of_mem a (ih.mpr ⟨h1, h2⟩)

theorem foldl_erase_all :
    ∀ (ids : List Nat) (M : Registry), (∀ e ∈ M, e.1 ∈ ids) →
      ids.foldl (fun reg oid => eraseOrder reg oid) M = [] := by
  intro ids
  induction ids with
  | nil =>
    intro M h
    cases M with
    | nil => rfl
    | cons a t => exact absurd (h a (List.mem_cons_self a t)) (List.not_mem_nil a.1)
  | cons i t ih =>
    intro M h
    rw [List.foldl_cons]
    apply ih
    intro e he
    rw [mem_eraseOrder] at he
    rcases List.mem_cons.mp (h e he.1) with h1 | h1
    · exact absurd h1 he.2
    · exact h1

/-- Claim C10: `cancel_pending_orders` always leaves the pending-order
registry empty — in test mode by assigning `{}`, in live mode by deleting
every identifier whether or not its gateway `cancel_order` call raised
(both the success path and the `except` handler delete the entry). -/
theorem claim_C10 (test_mode : Bool) (cancelRaises : Nat → Bool)
    (st : AgentState) :
    (cancel_pending_orders test_mode cancelRaises st).pending = [] := by
  cases test_mode
  · show ((st.pending.map Prod.fst).foldl
      (fun reg oid =>
        if cancelRaises oid then eraseOrder reg oid else eraseOrder reg oid)
      st.pending) = []
    have hfn : (fun (reg : Registry) (oid : Nat) =>
        if cancelRaises oid then eraseOrder reg oid else eraseOrder reg oid) =
        fun reg oid => eraseOrder reg oid := by
      funext reg oid
      exact ite_self _
    rw [hfn]
    exact foldl_erase_all _ st.pending
      (fun e he => List.mem_map_of_mem Prod.fst he)
  · rfl

end StrategyBacktest
